import Mathlib

/-!
# Verification of the audio-merge engine specification

The repository's core engine (format inspector, normalization planner,
merge engine with crossfade, container finalizer) is a Python backend whose
source files are not present under `src/`; only the web front-end components
and project documentation are.  The engine is therefore modelled from the
specification (`spec.md`), faithful to its words; the front-end components
(`merge-control`, `merge-options`) are embedded from their TypeScript source.

All byte streams are `List Nat` with each entry intended in `[0, 256)`.
-/

namespace AudioMerge

/-- Low byte of a 32-bit little-endian encoding. -/
def lo8 (n : Nat) : Nat := n % 256

/-- Second byte of a 32-bit little-endian encoding. -/
def b1of (n : Nat) : Nat := n / 256 % 256

/-- Third byte of a 32-bit little-endian encoding. -/
def b2of (n : Nat) : Nat := n / 65536 % 256

/-- Fourth byte of a 32-bit little-endian encoding. -/
def b3of (n : Nat) : Nat := n / 16777216 % 256

/-- Value of four little-endian bytes. -/
def u32val (a b c d : Nat) : Nat := a + 256 * b + 65536 * c + 16777216 * d

/-- Value of two little-endian bytes. -/
def u16val (a b : Nat) : Nat := a + 256 * b

theorem u32val_bytes (n : Nat) :
    u32val (lo8 n) (b1of n) (b2of n) (b3of n) = n % 4294967296 := by
  simp only [u32val, lo8, b1of, b2of, b3of]
  omega

theorem u16val_bytes (n : Nat) : u16val (lo8 n) (b1of n) = n % 65536 := by
  simp only [u16val, lo8, b1of]
  omega

/-- Modelled from the spec (§3): the format descriptor produced by the
Format Inspector — sample rate, channel count, bits per sample.
(The data-chunk offset/length is carried separately in `ParsedWav`.) -/
structure FormatDescriptor where
  sampleRate : Nat
  channels : Nat
  bitsPerSample : Nat
deriving Repr, DecidableEq

/-- Modelled from the spec (§7): the engine's error taxonomy. -/
inductive MergeError where
  | MalformedContainer
  | UnsupportedCodec
  | ValidationFailed (invalidInputs : List Nat)
  | FormatMismatch (conflictingInputs : List Nat)
  | ConversionFailed
  | SizeLimitExceeded
  | Cancelled
  | InternalError
deriving Repr, DecidableEq

/-- Result of a successful container inspection: the format plus the
data-chunk payload length. -/
structure ParsedWav where
  fmt : FormatDescriptor
  dataLen : Nat
deriving Repr, DecidableEq

/-- Modelled from the spec (§4.5/§6): the RIFF/WAVE container written by the
engine — `RIFF` tag, riff size, `WAVE`, a 16-byte PCM `fmt ` chunk holding the
TargetProfile's fields, then the `data` chunk with the PCM payload. -/
def buildWav (p : FormatDescriptor) (payload : List Nat) : List Nat :=
  let n := payload.length
  let riffSize := 36 + n
  let byteRate := p.sampleRate * p.channels * (p.bitsPerSample / 8)
  let blockAlign := p.channels * (p.bitsPerSample / 8)
  82 :: 73 :: 70 :: 70 ::
  lo8 riffSize :: b1of riffSize :: b2of riffSize :: b3of riffSize ::
  87 :: 65 :: 86 :: 69 ::
  102 :: 109 :: 116 :: 32 ::
  16 :: 0 :: 0 :: 0 ::
  1 :: 0 ::
  lo8 p.channels :: b1of p.channels ::
  lo8 p.sampleRate :: b1of p.sampleRate :: b2of p.sampleRate :: b3of p.sampleRate ::
  lo8 byteRate :: b1of byteRate :: b2of byteRate :: b3of byteRate ::
  lo8 blockAlign :: b1of blockAlign ::
  lo8 p.bitsPerSample :: b1of p.bitsPerSample ::
  100 :: 97 :: 116 :: 97 ::
  lo8 n :: b1of n :: b2of n :: b3of n ::
  payload

/-- Modelled from the spec (§4.1): parse the 16-byte body of a `fmt ` chunk;
fails with `UnsupportedCodec` when the codec tag is not linear PCM (1). -/
def parseFmtBody : List Nat → Except MergeError FormatDescriptor
  | c0 :: c1 :: ch0 :: ch1 :: r0 :: r1 :: r2 :: r3 ::
      _br0 :: _br1 :: _br2 :: _br3 :: _ba0 :: _ba1 :: s0 :: s1 :: _ =>
    if u16val c0 c1 = 1 then
      .ok ⟨u32val r0 r1 r2 r3, u16val ch0 ch1, u16val s0 s1⟩
    else .error .UnsupportedCodec
  | _ => .error .MalformedContainer

/-- Modelled from the spec (§4.1): walk the chunk list after the 12-byte RIFF
header, locating the `fmt ` and `data` chunks by tag and skipping unknown
chunks by their declared length.  `fuel` bounds the walk (a chunk whose length
runs past the stream, or a header shorter than 8 bytes, is malformed). -/
def parseChunks : Nat → List Nat → Option FormatDescriptor → Option Nat →
    Except MergeError ParsedWav
  | _, [], some f, some d => .ok ⟨f, d⟩
  | _, [], _, _ => .error .MalformedContainer
  | 0, _ :: _, _, _ => .error .MalformedContainer
  | fuel + 1, t0 :: t1 :: t2 :: t3 :: s0 :: s1 :: s2 :: s3 :: rest, fmtSeen, dataSeen =>
    let size := u32val s0 s1 s2 s3
    if rest.length < size then .error .MalformedContainer
    else if t0 = 102 ∧ t1 = 109 ∧ t2 = 116 ∧ t3 = 32 then
      if size < 16 then .error .MalformedContainer
      else
        parseFmtBody rest >>= fun f => parseChunks fuel (rest.drop size) (some f) dataSeen
    else if t0 = 100 ∧ t1 = 97 ∧ t2 = 116 ∧ t3 = 97 then
      parseChunks fuel (rest.drop size) fmtSeen (some size)
    else parseChunks fuel (rest.drop size) fmtSeen dataSeen
  | _, _ :: _, _, _ => .error .MalformedContainer

/-- Modelled from the spec (§4.1): `inspect(stream)` — checks the `RIFF` and
`WAVE` tags, checks the declared container size does not run past the stream,
then walks the chunks.  Pure parse; records the data payload length only. -/
def inspect : List Nat → Except MergeError ParsedWav
  | r0 :: r1 :: r2 :: r3 :: z0 :: z1 :: z2 :: z3 :: w0 :: w1 :: w2 :: w3 :: rest =>
    if r0 = 82 ∧ r1 = 73 ∧ r2 = 70 ∧ r3 = 70 then
      if w0 = 87 ∧ w1 = 65 ∧ w2 = 86 ∧ w3 = 69 then
        if rest.length + 4 < u32val z0 z1 z2 z3 then .error .MalformedContainer
        else parseChunks (rest.length + 1) rest none none
      else .error .MalformedContainer
    else .error .MalformedContainer
  | _ => .error .MalformedContainer

example : inspect (buildWav ⟨44100, 2, 16⟩ [7, 8, 9, 10]) = .ok ⟨⟨44100, 2, 16⟩, 4⟩ := rfl

example : inspect [82, 73, 70, 70] = .error .MalformedContainer := rfl

theorem inspect_step (r0 r1 r2 r3 z0 z1 z2 z3 w0 w1 w2 w3 : Nat) (rest : List Nat) :
    inspect (r0 :: r1 :: r2 :: r3 :: z0 :: z1 :: z2 :: z3 :: w0 :: w1 :: w2 :: w3 :: rest) =
      (if r0 = 82 ∧ r1 = 73 ∧ r2 = 70 ∧ r3 = 70 then
        if w0 = 87 ∧ w1 = 65 ∧ w2 = 86 ∧ w3 = 69 then
          if rest.length + 4 < u32val z0 z1 z2 z3 then .error .MalformedContainer
          else parseChunks (rest.length + 1) rest none none
        else .error .MalformedContainer
      else .error .MalformedContainer) := rfl

theorem parseChunks_step (fuel t0 t1 t2 t3 s0 s1 s2 s3 : Nat) (rest : List Nat)
    (fmtSeen : Option FormatDescriptor) (dataSeen : Option Nat) :
    parseChunks (fuel + 1) (t0 :: t1 :: t2 :: t3 :: s0 :: s1 :: s2 :: s3 :: rest)
        fmtSeen dataSeen =
      (if rest.length < u32val s0 s1 s2 s3 then .error .MalformedContainer
      else if t0 = 102 ∧ t1 = 109 ∧ t2 = 116 ∧ t3 = 32 then
        if u32val s0 s1 s2 s3 < 16 then .error .MalformedContainer
        else
          parseFmtBody rest >>= fun f =>
            parseChunks fuel (rest.drop (u32val s0 s1 s2 s3)) (some f) dataSeen
      else if t0 = 100 ∧ t1 = 97 ∧ t2 = 116 ∧ t3 = 97 then
        parseChunks fuel (rest.drop (u32val s0 s1 s2 s3)) fmtSeen (some (u32val s0 s1 s2 s3))
      else parseChunks fuel (rest.drop (u32val s0 s1 s2 s3)) fmtSeen dataSeen) := rfl

theorem parseChunks_nil_done (fuel : Nat) (f : FormatDescriptor) (d : Nat) :
    parseChunks fuel [] (some f) (some d) = .ok ⟨f, d⟩ := by
  cases fuel with
  | zero => rfl
  | succ k => rfl

theorem except_bind_ok {α β : Type} (a : α) (g : α → Except MergeError β) :
    ((Except.ok a : Except MergeError α) >>= g) = g a := rfl

theorem parseFmtBody_step (c0 c1 ch0 ch1 r0 r1 r2 r3 br0 br1 br2 br3 ba0 ba1 s0 s1 : Nat)
    (t : List Nat) :
    parseFmtBody (c0 :: c1 :: ch0 :: ch1 :: r0 :: r1 :: r2 :: r3 ::
        br0 :: br1 :: br2 :: br3 :: ba0 :: ba1 :: s0 :: s1 :: t) =
      (if u16val c0 c1 = 1 then
        .ok ⟨u32val r0 r1 r2 r3, u16val ch0 ch1, u16val s0 s1⟩
      else .error .UnsupportedCodec) := rfl

theorem drop16_cons (a0 a1 a2 a3 a4 a5 a6 a7 a8 a9 a10 a11 a12 a13 a14 a15 : Nat)
    (t : List Nat) :
    (a0 :: a1 :: a2 :: a3 :: a4 :: a5 :: a6 :: a7 :: a8 :: a9 :: a10 :: a11 ::
      a12 :: a13 :: a14 :: a15 :: t).drop 16 = t := rfl

/-- Walking the two chunks (`fmt `, `data`) written by `buildWav` recovers the
profile fields and the payload length, for any sufficient fuel. -/
theorem parseChunks_wavChunks (rate ch bits : Nat) (payload : List Nat) (fuel : Nat)
    (hfuel : 2 ≤ fuel)
    (hch : ch < 65536) (hr : rate < 4294967296) (hb : bits < 65536)
    (hn : payload.length + 44 < 4294967296) :
    parseChunks fuel
      (102 :: 109 :: 116 :: 32 :: 16 :: 0 :: 0 :: 0 ::
       1 :: 0 :: lo8 ch :: b1of ch ::
       lo8 rate :: b1of rate :: b2of rate :: b3of rate ::
       lo8 (rate * ch * (bits / 8)) :: b1of (rate * ch * (bits / 8)) ::
       b2of (rate * ch * (bits / 8)) :: b3of (rate * ch * (bits / 8)) ::
       lo8 (ch * (bits / 8)) :: b1of (ch * (bits / 8)) ::
       lo8 bits :: b1of bits ::
       100 :: 97 :: 116 :: 97 ::
       lo8 payload.length :: b1of payload.length ::
       b2of payload.length :: b3of payload.length :: payload)
      none none = .ok ⟨⟨rate, ch, bits⟩, payload.length⟩ := by
  obtain ⟨k, rfl⟩ : ∃ k, fuel = k + 1 + 1 := ⟨fuel - 2, by omega⟩
  rw [parseChunks_step]
  rw [show u32val 16 0 0 0 = 16 from by decide]
  rw [if_neg ?c1]
  rw [if_pos ?c2]
  rw [if_neg ?c3]
  rw [parseFmtBody_step]
  rw [if_pos ?c4]
  rw [except_bind_ok]
  rw [drop16_cons]
  rw [parseChunks_step]
  rw [show u32val (lo8 payload.length) (b1of payload.length) (b2of payload.length)
      (b3of payload.length) = payload.length from by rw [u32val_bytes]; omega]
  rw [if_neg ?c5]
  rw [if_neg ?c6]
  rw [if_pos ?c7]
  rw [List.drop_length]
  rw [parseChunks_nil_done]
  rw [u32val_bytes, u16val_bytes, u16val_bytes, Nat.mod_eq_of_lt hr,
    Nat.mod_eq_of_lt hch, Nat.mod_eq_of_lt hb]
  case c1 => simp only [List.length_cons]; omega
  case c2 => exact ⟨rfl, rfl, rfl, rfl⟩
  case c3 => decide
  case c4 => decide
  case c5 => omega
  case c6 => decide
  case c7 => exact ⟨rfl, rfl, rfl, rfl⟩

/-- Round trip of the container writer and the Format Inspector: inspecting a
container built for profile `p` over a given payload recovers exactly `p` and
the payload length, provided the profile fields and payload size fit their
RIFF encodings. -/
theorem inspect_buildWav (p : FormatDescriptor) (payload : List Nat)
    (hch : p.channels < 65536)
    (hr : p.sampleRate < 4294967296)
    (hb : p.bitsPerSample < 65536)
    (hn : payload.length + 44 < 4294967296) :
    inspect (buildWav p payload) = .ok ⟨p, payload.length⟩ := by
  simp only [buildWav, inspect_step]
  rw [if_pos (by norm_num), if_pos (by norm_num)]
  rw [if_neg (by simp only [List.length_cons, u32val_bytes]; omega)]
  exact parseChunks_wavChunks p.sampleRate p.channels p.bitsPerSample payload _
    (by simp only [List.length_cons]; omega) hch hr hb hn

/-- Modelled from the spec (§3): per-input outcome of the Format Inspector. -/
inductive ValidationResult where
  | valid (fd : FormatDescriptor)
  | invalid (reason : String)
deriving Repr, DecidableEq

/-- True when a validation result is invalid. -/
def isInvalid : ValidationResult → Bool
  | .valid _ => false
  | .invalid _ => true

/-- Indices (in input order) of the invalid inputs. -/
def invalidIndices (results : List ValidationResult) : List Nat :=
  (results.enum.filter fun pr => isInvalid pr.2).map Prod.fst

/-- Format descriptors of the valid inputs, in input order. -/
def validDescs (results : List ValidationResult) : List FormatDescriptor :=
  results.filterMap fun r =>
    match r with
    | .valid fd => some fd
    | .invalid _ => none

/-- Indices of the valid inputs whose format conflicts with (differs from)
the first valid input's format. -/
def mismatchIndices (results : List ValidationResult) : List Nat :=
  match validDescs results with
  | [] => []
  | fd0 :: _ =>
    (results.enum.filter fun pr =>
      match pr.2 with
      | .valid fd => decide (fd ≠ fd0)
      | .invalid _ => false).map Prod.fst

/-- Modelled from the spec (§3): TargetProfile by the max-across-dimensions
rule — sample rate, channel count and bit depth each the maximum across the
valid inputs. -/
def maxTarget (descs : List FormatDescriptor) : FormatDescriptor :=
  ⟨(descs.map FormatDescriptor.sampleRate).foldr max 0,
   (descs.map FormatDescriptor.channels).foldr max 0,
   (descs.map FormatDescriptor.bitsPerSample).foldr max 0⟩

/-- Modelled from the spec (§4.2): the Normalization Planner.  Fails fast with
`ValidationFailed` listing all invalid inputs; with a shared format returns it
unchanged and flags nothing; with differing formats and `autoConvert` off
fails with `FormatMismatch` naming the conflicting inputs; otherwise returns
the max-across-dimensions TargetProfile, flagging every non-matching input. -/
def plan (results : List ValidationResult) (autoConvert : Bool) :
    Except MergeError (FormatDescriptor × List Bool) :=
  if invalidIndices results ≠ [] then .error (.ValidationFailed (invalidIndices results))
  else
    match validDescs results with
    | [] => .error (.ValidationFailed [])
    | fd :: rest =>
      if rest.all fun d => d = fd then
        .ok (fd, (fd :: rest).map fun _ => false)
      else if autoConvert then
        .ok (maxTarget (fd :: rest),
          (fd :: rest).map fun d => decide (d ≠ maxTarget (fd :: rest)))
      else .error (.FormatMismatch (mismatchIndices results))

/-- Modelled from the spec (§3): merge options — crossfade duration in
milliseconds, I/O buffer size in bytes, auto-convert flag. -/
structure MergeOptions where
  fadeMs : Nat
  bufferSize : Nat
  autoConvert : Bool
deriving Repr, DecidableEq

/-- Bytes per PCM frame (all channels) of a profile. -/
def frameBytes (p : FormatDescriptor) : Nat := p.channels * (p.bitsPerSample / 8)

/-- Sample (frame) count of a byte stream in a profile. -/
def samplesOf (p : FormatDescriptor) (s : List Nat) : Nat := s.length / frameBytes p

/-- Modelled from the spec (§4.4 step 3): the configured fade duration in
milliseconds converted to samples at the TargetProfile's rate (floored). -/
def fadeSamplesOf (p : FormatDescriptor) (fadeMs : Nat) : Nat :=
  fadeMs * p.sampleRate / 1000

/-- Modelled from the spec (§4.4 step 3): the fade window actually used at a
boundary — the requested fade clamped to at most half the sample count of the
shorter of the two adjacent streams. -/
def clampedFade (p : FormatDescriptor) (req : Nat) (cur next : List Nat) : Nat :=
  min req (min (samplesOf p cur) (samplesOf p next) / 2)

/-- Little-endian value of a byte list. -/
def leVal : List Nat → Nat
  | [] => 0
  | b :: rest => b + 256 * leVal rest

/-- Interpret a `w`-byte unsigned value as a signed (two's complement) one. -/
def toSigned (w u : Nat) : Int :=
  if u < 2 ^ (8 * w - 1) then (u : Int) else (u : Int) - 2 ^ (8 * w)

/-- Modelled from the spec (§4.4 step 3): decode `w` little-endian bytes into
a signed integer sample value. -/
def decodeSample (w : Nat) (bytes : List Nat) : Int := toSigned w (leVal bytes)

/-- `w` little-endian bytes of an unsigned value. -/
def bytesLE : Nat → Nat → List Nat
  | 0, _ => []
  | w + 1, u => u % 256 :: bytesLE w (u / 256)

/-- Re-encode a signed sample value into `w` little-endian bytes
(two's complement). -/
def encodeSample (w : Nat) (v : Int) : List Nat := bytesLE w (v % (2 ^ (8 * w))).toNat

/-- Modelled from the spec (§4.4 step 3): clamp a sample value to the
representable signed range of the bit depth. -/
def clampSample (bits : Nat) (v : Int) : Int :=
  max (-(2 ^ (bits - 1))) (min (2 ^ (bits - 1) - 1) v)

/-- Modelled from the spec (§4.4 step 3): the linear crossfade —
`round(a * (1 - k/F) + b * (k/F))`. -/
def blendSample (F k : Nat) (a b : Int) : Int :=
  round ((a : ℚ) * (1 - (k : ℚ) / (F : ℚ)) + (b : ℚ) * ((k : ℚ) / (F : ℚ)))

/-- The signed sample of channel `c` in frame `k` of a byte region. -/
def sampleAt (p : FormatDescriptor) (region : List Nat) (k c : Nat) : Int :=
  decodeSample (p.bitsPerSample / 8)
    ((region.drop ((k * p.channels + c) * (p.bitsPerSample / 8))).take (p.bitsPerSample / 8))

/-- One blended output frame at fade position `k`: each channel mixed
independently, clamped, re-encoded to bytes. -/
def blendFrame (p : FormatDescriptor) (F k : Nat) (aR bR : List Nat) : List Nat :=
  ((List.range p.channels).map fun c =>
    encodeSample (p.bitsPerSample / 8) (clampSample p.bitsPerSample
      (blendSample F k (sampleAt p aR k c) (sampleAt p bR k c)))).flatten

/-- The whole blended window of `F` frames replacing straight concatenation. -/
def blendRegion (p : FormatDescriptor) (F : Nat) (aR bR : List Nat) : List Nat :=
  ((List.range F).map fun k => blendFrame p F k aR bR).flatten

/-- Modelled from the spec (§4.4 steps 2–4): the logical PCM payload of the
merged output — each stream's bulk region, with the clamped blended window
replacing concatenation at each boundary. -/
def mergePayload (p : FormatDescriptor) (req : Nat) : List Nat → List (List Nat) → List Nat
  | cur, [] => cur
  | cur, next :: rest =>
    let F := clampedFade p req cur next
    let fb := frameBytes p
    cur.take (cur.length - F * fb) ++
      blendRegion p F (cur.drop (cur.length - F * fb)) (next.take (F * fb)) ++
      mergePayload p req (next.drop (F * fb)) rest

/-- Modelled from the spec (§4.4 step 3): the warnings accumulated while
merging — one per boundary whose fade window was clamped. -/
def mergeWarns (p : FormatDescriptor) (req : Nat) : List Nat → List (List Nat) → List String
  | _, [] => []
  | cur, next :: rest =>
    let F := clampedFade p req cur next
    (if F < req then ["crossfade clamped"] else []) ++
      mergeWarns p req (next.drop (F * frameBytes p)) rest

/-- Payload of the merged output over a whole stream list. -/
def mergedPayload (p : FormatDescriptor) (req : Nat) : List (List Nat) → List Nat
  | [] => []
  | s :: rest => mergePayload p req s rest

/-- Warnings of the merged output over a whole stream list. -/
def mergedWarnings (p : FormatDescriptor) (req : Nat) : List (List Nat) → List String
  | [] => []
  | s :: rest => mergeWarns p req s rest

/-- Modelled from the spec (§4.4 step 5): the safety cushion under the 4 GiB
RIFF ceiling (the spec fixes only that a cushion exists, not its size). -/
def sizeCushion : Nat := 1024

/-- Largest value allowed for the final 32-bit RIFF size field. -/
def riffSizeLimit : Nat := 4294967295 - sizeCushion

/-- Largest allowed output file size (RIFF size field excludes 8 tag bytes). -/
def fileSizeLimit : Nat := riffSizeLimit + 8

/-- The output sink during streaming: bytes written so far, plus the running
total of bytes written that the size check consults. -/
structure SinkState where
  data : List Nat
  total : Nat
deriving Repr, DecidableEq

/-- Modelled from the spec (§4.4 steps 2 and 5): write buffers one at a time,
adding each buffer's length to the running total; abort with
`SizeLimitExceeded` before writing a buffer that would push the final RIFF
size field over the limit. -/
def writeAll : SinkState → List (List Nat) → Except MergeError SinkState
  | st, [] => .ok st
  | st, buf :: rest =>
    if fileSizeLimit < st.total + buf.length then .error .SizeLimitExceeded
    else writeAll ⟨st.data ++ buf, st.total + buf.length⟩ rest

/-- Split a byte list into buffers of at most `b` bytes (I/O chunking).  The
first argument is fuel, always instantiated with the list length. -/
def chunksOfAux : Nat → Nat → List Nat → List (List Nat)
  | _, _, [] => []
  | 0, _, l => [l]
  | fuel + 1, b, a :: l =>
    if b = 0 then [a :: l]
    else (a :: l).take b :: chunksOfAux fuel b ((a :: l).drop b)

/-- Split a byte list into buffers of at most `b` bytes. -/
def chunksOf (b : Nat) (l : List Nat) : List (List Nat) := chunksOfAux l.length b l

/-- Modelled from the spec (§4.5): the Container Finalizer's header patch —
seek back and overwrite the 4 placeholder bytes of the RIFF chunk-size field
(bytes 4–7, with file size − 8) and of the data chunk-size field (bytes
40–43, with file size − 44); every other byte is left as streamed.  A file
shorter than the 44-byte header is returned unchanged. -/
def patchSizes : List Nat → List Nat
  | a0 :: a1 :: a2 :: a3 :: _ :: _ :: _ :: _ ::
    a8 :: a9 :: a10 :: a11 :: a12 :: a13 :: a14 :: a15 ::
    a16 :: a17 :: a18 :: a19 :: a20 :: a21 :: a22 :: a23 ::
    a24 :: a25 :: a26 :: a27 :: a28 :: a29 :: a30 :: a31 ::
    a32 :: a33 :: a34 :: a35 :: a36 :: a37 :: a38 :: a39 ::
    _ :: _ :: _ :: _ :: rest =>
    a0 :: a1 :: a2 :: a3 ::
    lo8 (rest.length + 36) :: b1of (rest.length + 36) ::
    b2of (rest.length + 36) :: b3of (rest.length + 36) ::
    a8 :: a9 :: a10 :: a11 :: a12 :: a13 :: a14 :: a15 ::
    a16 :: a17 :: a18 :: a19 :: a20 :: a21 :: a22 :: a23 ::
    a24 :: a25 :: a26 :: a27 :: a28 :: a29 :: a30 :: a31 ::
    a32 :: a33 :: a34 :: a35 :: a36 :: a37 :: a38 :: a39 ::
    lo8 rest.length :: b1of rest.length :: b2of rest.length :: b3of rest.length ::
    rest
  | file => file

/-- Modelled from the spec (§4.5): patch the sizes, then re-run the Format
Inspector on the finalized output as a correctness check; an Inspector
failure on the engine's own output is the internal-invariant violation
`InternalError`, not a user-facing input error. -/
def finalizeAndVerify (streamed : List Nat) : Except MergeError (ParsedWav × List Nat) :=
  let final := patchSizes streamed
  match inspect final with
  | .ok parsed => .ok (parsed, final)
  | .error _ => .error .InternalError

/-- Modelled from the spec (§3): the merge result — output format, total
sample duration, accumulated non-fatal warnings. -/
structure MergeResult where
  descriptor : FormatDescriptor
  durationSamples : Nat
  warnings : List String
deriving Repr, DecidableEq

/-- Modelled from the spec (§4.4): the Merge Engine.  Writes a provisional
header, streams the merged payload buffer-at-a-time at the configured buffer
size under the running size check, then finalizes and re-inspects.  The
second component is the output file on disk after the call: `none` on any
failure (the partial output is removed on every abort path, §7). -/
def merge (p : FormatDescriptor) (opts : MergeOptions) (streams : List (List Nat)) :
    Except MergeError MergeResult × Option (List Nat) :=
  let req := fadeSamplesOf p opts.fadeMs
  let payload := mergedPayload p req streams
  match writeAll ⟨buildWav p [], 44⟩ (chunksOf opts.bufferSize payload) with
  | .error e => (.error e, none)
  | .ok st =>
    match finalizeAndVerify st.data with
    | .error e => (.error e, none)
    | .ok (parsed, final) =>
      (.ok ⟨parsed.fmt, payload.length / frameBytes p, mergedWarnings p req streams⟩,
        some final)

/-- Modelled from the spec (§4 control flow): a whole job — plan from the
validation results, then (with normalization delegated to the external
transcoder) run the Merge Engine.  Planning errors abort before any byte is
streamed, so no output artifact exists (`none`). -/
def mergeJob (results : List ValidationResult) (streams : List (List Nat))
    (opts : MergeOptions) : Except MergeError MergeResult × Option (List Nat) :=
  match plan results opts.autoConvert with
  | .error e => (.error e, none)
  | .ok (target, _) => merge target opts streams

theorem chunksOfAux_flatten (fuel b : Nat) (l : List Nat) :
    (chunksOfAux fuel b l).flatten = l := by
  induction fuel generalizing l with
  | zero =>
    cases l with
    | nil => rfl
    | cons a t => simp [chunksOfAux]
  | succ k ih =>
    cases l with
    | nil => rfl
    | cons a t =>
      by_cases hb : b = 0
      · simp [chunksOfAux, hb]
      · simp only [chunksOfAux, if_neg hb, List.flatten_cons, ih]
        exact List.take_append_drop b (a :: t)

/-- Re-concatenating the I/O buffers recovers the byte stream: chunking is
pure I/O bookkeeping. -/
theorem chunksOf_flatten (b : Nat) (l : List Nat) : (chunksOf b l).flatten = l :=
  chunksOfAux_flatten l.length b l

/-- Canonical behaviour of buffer-at-a-time writing: the outcome depends only
on the concatenation of the buffers — it succeeds appending all bytes exactly
when the grand total stays within the limit, and aborts with
`SizeLimitExceeded` otherwise. -/
theorem writeAll_spec (chunks : List (List Nat)) (st : SinkState)
    (h : st.total ≤ fileSizeLimit) :
    writeAll st chunks =
      if fileSizeLimit < st.total + chunks.flatten.length then .error .SizeLimitExceeded
      else .ok ⟨st.data ++ chunks.flatten, st.total + chunks.flatten.length⟩ := by
  induction chunks generalizing st with
  | nil =>
    simp only [writeAll, List.flatten_nil, List.length_nil, Nat.add_zero, List.append_nil]
    rw [if_neg (by omega)]
  | cons buf rest ih =>
    simp only [writeAll, List.flatten_cons, List.length_append]
    by_cases hb : fileSizeLimit < st.total + buf.length
    · rw [if_pos hb, if_pos (by omega)]
    · rw [if_neg hb, ih ⟨st.data ++ buf, st.total + buf.length⟩
        (by show st.total + buf.length ≤ fileSizeLimit; omega)]
      by_cases h2 : fileSizeLimit < st.total + buf.length + rest.flatten.length
      · rw [if_pos h2, if_pos (by omega)]
      · rw [if_neg h2, if_neg (by omega)]
        simp [List.append_assoc, Nat.add_assoc]

theorem patchSizes_step
    (a0 a1 a2 a3 a4 a5 a6 a7 a8 a9 a10 a11 a12 a13 a14 a15 a16 a17 a18 a19
     a20 a21 a22 a23 a24 a25 a26 a27 a28 a29 a30 a31 a32 a33 a34 a35 a36 a37
     a38 a39 a40 a41 a42 a43 : Nat) (rest : List Nat) :
    patchSizes (a0 :: a1 :: a2 :: a3 :: a4 :: a5 :: a6 :: a7 ::
      a8 :: a9 :: a10 :: a11 :: a12 :: a13 :: a14 :: a15 ::
      a16 :: a17 :: a18 :: a19 :: a20 :: a21 :: a22 :: a23 ::
      a24 :: a25 :: a26 :: a27 :: a28 :: a29 :: a30 :: a31 ::
      a32 :: a33 :: a34 :: a35 :: a36 :: a37 :: a38 :: a39 ::
      a40 :: a41 :: a42 :: a43 :: rest) =
    (a0 :: a1 :: a2 :: a3 ::
      lo8 (rest.length + 36) :: b1of (rest.length + 36) ::
      b2of (rest.length + 36) :: b3of (rest.length + 36) ::
      a8 :: a9 :: a10 :: a11 :: a12 :: a13 :: a14 :: a15 ::
      a16 :: a17 :: a18 :: a19 :: a20 :: a21 :: a22 :: a23 ::
      a24 :: a25 :: a26 :: a27 :: a28 :: a29 :: a30 :: a31 ::
      a32 :: a33 :: a34 :: a35 :: a36 :: a37 :: a38 :: a39 ::
      lo8 rest.length :: b1of rest.length :: b2of rest.length :: b3of rest.length ::
      rest) := rfl

/-- Patching the provisional header streamed by the engine yields exactly the
container with the true sizes. -/
theorem patchSizes_header (p : FormatDescriptor) (payload : List Nat) :
    patchSizes (buildWav p [] ++ payload) = buildWav p payload := by
  simp only [buildWav, List.length_nil, List.cons_append, List.nil_append,
    patchSizes_step]
  rw [show payload.length + 36 = 36 + payload.length from by omega]

/-- The engine's canonical behaviour: merge is the size-checked streaming of
the logical merged payload after the provisional header, then finalize. -/
theorem merge_eq (p : FormatDescriptor) (opts : MergeOptions) (streams : List (List Nat)) :
    merge p opts streams =
      (if fileSizeLimit <
          44 + (mergedPayload p (fadeSamplesOf p opts.fadeMs) streams).length then
        (.error .SizeLimitExceeded, none)
      else
        match finalizeAndVerify (buildWav p [] ++
            mergedPayload p (fadeSamplesOf p opts.fadeMs) streams) with
        | .error e => (.error e, none)
        | .ok (parsed, final) =>
          (.ok ⟨parsed.fmt,
              (mergedPayload p (fadeSamplesOf p opts.fadeMs) streams).length / frameBytes p,
              mergedWarnings p (fadeSamplesOf p opts.fadeMs) streams⟩,
            some final)) := by
  simp only [merge]
  rw [writeAll_spec _ _ (by norm_num [fileSizeLimit, riffSizeLimit, sizeCushion])]
  rw [chunksOf_flatten]
  by_cases h :
      fileSizeLimit < 44 + (mergedPayload p (fadeSamplesOf p opts.fadeMs) streams).length
  · rw [if_pos h, if_pos h]
  · rw [if_neg h, if_neg h]

/-- Successful merge, characterized: when the profile fields fit their RIFF
encodings and the merged payload respects the size ceiling, merge returns the
finalized container over the merged payload, with the profile as the output
descriptor. -/
theorem merge_ok (p : FormatDescriptor) (opts : MergeOptions) (streams : List (List Nat))
    (hch : p.channels < 65536) (hr : p.sampleRate < 4294967296)
    (hb : p.bitsPerSample < 65536)
    (hsize : 44 + (mergedPayload p (fadeSamplesOf p opts.fadeMs) streams).length
      ≤ fileSizeLimit) :
    merge p opts streams =
      (.ok ⟨p,
          (mergedPayload p (fadeSamplesOf p opts.fadeMs) streams).length / frameBytes p,
          mergedWarnings p (fadeSamplesOf p opts.fadeMs) streams⟩,
        some (buildWav p (mergedPayload p (fadeSamplesOf p opts.fadeMs) streams))) := by
  rw [merge_eq]
  rw [if_neg (by omega)]
  have hn : (mergedPayload p (fadeSamplesOf p opts.fadeMs) streams).length + 44
      < 4294967296 := by
    simp only [fileSizeLimit, riffSizeLimit, sizeCushion] at hsize
    omega
  rw [show finalizeAndVerify (buildWav p [] ++
        mergedPayload p (fadeSamplesOf p opts.fadeMs) streams) =
      .ok (⟨p, (mergedPayload p (fadeSamplesOf p opts.fadeMs) streams).length⟩,
        buildWav p (mergedPayload p (fadeSamplesOf p opts.fadeMs) streams)) from by
    simp only [finalizeAndVerify, patchSizes_header,
      inspect_buildWav p _ hch hr hb hn]]

theorem mergePayload_zero (p : FormatDescriptor) (cur : List Nat)
    (rest : List (List Nat)) : mergePayload p 0 cur rest = cur ++ rest.flatten := by
  induction rest generalizing cur with
  | nil => simp [mergePayload]
  | cons next t ih =>
    simp [mergePayload, clampedFade, blendRegion, ih]

theorem mergedPayload_zero (p : FormatDescriptor) (streams : List (List Nat)) :
    mergedPayload p 0 streams = streams.flatten := by
  cases streams with
  | nil => rfl
  | cons s t => simp [mergedPayload, mergePayload_zero]

theorem mergeWarns_zero (p : FormatDescriptor) (cur : List Nat)
    (rest : List (List Nat)) : mergeWarns p 0 cur rest = [] := by
  induction rest generalizing cur with
  | nil => rfl
  | cons next t ih => simp [mergeWarns, ih]

theorem mergedWarnings_zero (p : FormatDescriptor) (streams : List (List Nat)) :
    mergedWarnings p 0 streams = [] := by
  cases streams with
  | nil => rfl
  | cons s t => simp [mergedWarnings, mergeWarns_zero]

theorem flatten_length_div (fb : Nat) (hfb : 0 < fb) (ls : List (List Nat))
    (h : ∀ s ∈ ls, fb ∣ s.length) :
    ls.flatten.length / fb = (ls.map fun s => s.length / fb).sum := by
  induction ls with
  | nil => simp
  | cons a t ih =>
    simp only [List.flatten_cons, List.length_append, List.map_cons, List.sum_cons]
    obtain ⟨k, hk⟩ := h a (List.mem_cons_self a t)
    rw [hk, Nat.mul_add_div hfb, Nat.mul_div_cancel_left k hfb,
      ih (fun s hs => h s (List.mem_cons_of_mem a hs))]

theorem buildWav_length (p : FormatDescriptor) (payload : List Nat) :
    (buildWav p payload).length = payload.length + 44 := by
  simp only [buildWav, List.length_cons]

theorem buildWav_drop44 (p : FormatDescriptor) (payload : List Nat) :
    (buildWav p payload).drop 44 = payload := rfl

/-- Claim C1: with a zero crossfade the merged output is the finalized container
whose PCM data payload is the exact concatenation of the input payloads in
job order, and the output duration is the sum of the input durations. -/
theorem c1_fadeZero_concat (p : FormatDescriptor) (opts : MergeOptions)
    (streams : List (List Nat))
    (hfade : opts.fadeMs = 0)
    (hch : p.channels < 65536) (hch0 : 0 < p.channels)
    (hr : p.sampleRate < 4294967296) (hb : p.bitsPerSample < 65536)
    (hbits : 8 ≤ p.bitsPerSample)
    (halign : ∀ s ∈ streams, frameBytes p ∣ s.length)
    (hsize : 44 + streams.flatten.length ≤ fileSizeLimit) :
    merge p opts streams =
      (.ok ⟨p, (streams.map fun s => samplesOf p s).sum, []⟩,
        some (buildWav p streams.flatten)) ∧
    (buildWav p streams.flatten).drop 44 = streams.flatten := by
  have hreq : fadeSamplesOf p opts.fadeMs = 0 := by simp [fadeSamplesOf, hfade]
  have hpl : mergedPayload p (fadeSamplesOf p opts.fadeMs) streams = streams.flatten := by
    rw [hreq, mergedPayload_zero]
  have hw : mergedWarnings p (fadeSamplesOf p opts.fadeMs) streams = [] := by
    rw [hreq, mergedWarnings_zero]
  have hfb : 0 < frameBytes p := by
    have : 1 ≤ p.bitsPerSample / 8 := by omega
    simp only [frameBytes]
    exact Nat.mul_pos hch0 this
  refine ⟨?_, buildWav_drop44 p streams.flatten⟩
  rw [merge_ok p opts streams hch hr hb (by rw [hpl]; exact hsize)]
  rw [hpl, hw]
  rw [flatten_length_div (frameBytes p) hfb streams halign]
  rfl

theorem c1_fadeZero_concat_witness :
    merge ⟨8000, 1, 16⟩ ⟨0, 4, true⟩ [[0, 1], [2, 3]] =
      (.ok ⟨⟨8000, 1, 16⟩, 2, []⟩, some (buildWav ⟨8000, 1, 16⟩ [0, 1, 2, 3])) ∧
    (buildWav ⟨8000, 1, 16⟩ [0, 1, 2, 3]).drop 44 = [0, 1, 2, 3] :=
  c1_fadeZero_concat ⟨8000, 1, 16⟩ ⟨0, 4, true⟩ [[0, 1], [2, 3]] rfl
    (by norm_num) (by norm_num) (by norm_num) (by norm_num) (by norm_num)
    (by intro s hs; fin_cases hs <;> decide)
    (by norm_num [fileSizeLimit, riffSizeLimit, sizeCushion])

/-- Claim C2: buffer size influences only I/O chunking — two jobs differing only in
buffer size produce identical results and identical output files. -/
theorem c2_bufferSize_irrelevant (results : List ValidationResult)
    (streams : List (List Nat)) (fadeMs bs1 bs2 : Nat) (ac : Bool) :
    mergeJob results streams ⟨fadeMs, bs1, ac⟩ =
      mergeJob results streams ⟨fadeMs, bs2, ac⟩ := by
  simp only [mergeJob]
  cases hp : plan results ac with
  | error e => rfl
  | ok tf =>
    obtain ⟨target, flags⟩ := tf
    show merge target ⟨fadeMs, bs1, ac⟩ streams = merge target ⟨fadeMs, bs2, ac⟩ streams
    rw [merge_eq, merge_eq]

theorem writeAll_total (chunks : List (List Nat)) (st st' : SinkState)
    (h : writeAll st chunks = .ok st') (hinv : st.total = st.data.length) :
    st'.total = st'.data.length := by
  induction chunks generalizing st with
  | nil =>
    simp only [writeAll, Except.ok.injEq] at h
    rw [← h]; exact hinv
  | cons buf rest ih =>
    simp only [writeAll] at h
    by_cases hb : fileSizeLimit < st.total + buf.length
    · rw [if_pos hb] at h; exact absurd h (by simp)
    · rw [if_neg hb] at h
      exact ih ⟨st.data ++ buf, st.total + buf.length⟩ h
        (by simp [List.length_append, hinv])

/-- Claim C6: the engine keeps a running byte total; a payload that would overflow
the RIFF size ceiling aborts the job with `SizeLimitExceeded` — before the
offending buffer is written — and no failing merge ever leaves an output
file. -/
theorem c6_sizeLimit_abort (p : FormatDescriptor) (opts : MergeOptions)
    (streams : List (List Nat))
    (hover : fileSizeLimit <
      44 + (mergedPayload p (fadeSamplesOf p opts.fadeMs) streams).length) :
    merge p opts streams = (.error .SizeLimitExceeded, none) ∧
    (∀ st buf rest, fileSizeLimit < st.total + buf.length →
      writeAll st (buf :: rest) = .error .SizeLimitExceeded) ∧
    (∀ chunks st st', writeAll st chunks = .ok st' → st.total = st.data.length →
      st'.total = st'.data.length) ∧
    (∀ q o s e, (merge q o s).1 = .error e → (merge q o s).2 = none) := by
  refine ⟨?_, ?_, ?_, ?_⟩
  · rw [merge_eq, if_pos hover]
  · intro st buf rest h
    simp [writeAll, h]
  · intro chunks st st' h hinv
    exact writeAll_total chunks st st' h hinv
  · intro q o s e h
    rw [merge_eq] at h ⊢
    by_cases hc : fileSizeLimit <
        44 + (mergedPayload q (fadeSamplesOf q o.fadeMs) s).length
    · rw [if_pos hc]
    · rw [if_neg hc] at h ⊢
      cases hf : finalizeAndVerify (buildWav q [] ++
          mergedPayload q (fadeSamplesOf q o.fadeMs) s) with
      | error e2 => rfl
      | ok pr =>
        obtain ⟨parsed, final⟩ := pr
        rw [hf] at h
        simp at h

theorem c6_sizeLimit_abort_witness :
    merge ⟨8000, 1, 16⟩ ⟨0, 65536, true⟩ [List.replicate 8589934592 0] =
      (.error .SizeLimitExceeded, none) :=
  (c6_sizeLimit_abort ⟨8000, 1, 16⟩ ⟨0, 65536, true⟩ [List.replicate 8589934592 0]
    (by
      rw [show mergedPayload ⟨8000, 1, 16⟩
          (fadeSamplesOf ⟨8000, 1, 16⟩ (MergeOptions.mk 0 65536 true).fadeMs)
          [List.replicate 8589934592 0] = List.replicate 8589934592 0 from by
        simp only [mergedPayload, mergePayload]]
      rw [List.length_replicate]
      norm_num [fileSizeLimit, riffSizeLimit, sizeCushion])).1

/-- Claim C8: the merge-then-finalize-then-inspect round trip — inspecting a
successfully merged output yields `valid` with a descriptor equal to the
TargetProfile; and an Inspector report of `MalformedContainer` on the
engine's own finalized output surfaces as `InternalError`. -/
theorem c8_roundTrip (p : FormatDescriptor) (opts : MergeOptions)
    (streams : List (List Nat))
    (hch : p.channels < 65536) (hr : p.sampleRate < 4294967296)
    (hb : p.bitsPerSample < 65536)
    (hsize : 44 + (mergedPayload p (fadeSamplesOf p opts.fadeMs) streams).length
      ≤ fileSizeLimit) :
    (∃ res file, merge p opts streams = (.ok res, some file) ∧
      inspect file = .ok ⟨p, file.length - 44⟩ ∧ res.descriptor = p) ∧
    (∀ f, inspect (patchSizes f) = .error .MalformedContainer →
      finalizeAndVerify f = .error .InternalError) := by
  constructor
  · refine ⟨_, _, merge_ok p opts streams hch hr hb hsize, ?_, rfl⟩
    rw [buildWav_length, Nat.add_sub_cancel]
    refine inspect_buildWav p _ hch hr hb ?_
    simp only [fileSizeLimit, riffSizeLimit, sizeCushion] at hsize
    omega
  · intro f h
    simp [finalizeAndVerify, h]

theorem c8_roundTrip_witness :
    (∃ res file, merge ⟨8000, 1, 16⟩ ⟨0, 4, true⟩ [[0, 1]] = (.ok res, some file) ∧
      inspect file = .ok ⟨⟨8000, 1, 16⟩, file.length - 44⟩ ∧
      res.descriptor = ⟨8000, 1, 16⟩) ∧
    (∀ f, inspect (patchSizes f) = .error .MalformedContainer →
      finalizeAndVerify f = .error .InternalError) :=
  c8_roundTrip ⟨8000, 1, 16⟩ ⟨0, 4, true⟩ [[0, 1]]
    (by norm_num) (by norm_num) (by norm_num) (by decide)

/-- Claim C5: an over-long crossfade request at a boundary is clamped to at most
half the sample count of the shorter adjacent stream, a warning is recorded
in the merge result, and the job still completes successfully. -/
theorem c5_overlong_fade (p : FormatDescriptor) (opts : MergeOptions) (a b : List Nat)
    (hch : p.channels < 65536) (hr : p.sampleRate < 4294967296)
    (hbit : p.bitsPerSample < 65536)
    (hsize : 44 + (mergedPayload p (fadeSamplesOf p opts.fadeMs) [a, b]).length
      ≤ fileSizeLimit)
    (hover : min (samplesOf p a) (samplesOf p b) / 2 < fadeSamplesOf p opts.fadeMs) :
    clampedFade p (fadeSamplesOf p opts.fadeMs) a b
        ≤ min (samplesOf p a) (samplesOf p b) / 2 ∧
    clampedFade p (fadeSamplesOf p opts.fadeMs) a b
        = min (samplesOf p a) (samplesOf p b) / 2 ∧
    ∃ res, merge p opts [a, b] =
        (.ok res,
          some (buildWav p (mergedPayload p (fadeSamplesOf p opts.fadeMs) [a, b]))) ∧
      res.warnings = ["crossfade clamped"] := by
  have hcl : clampedFade p (fadeSamplesOf p opts.fadeMs) a b
      = min (samplesOf p a) (samplesOf p b) / 2 := by
    unfold clampedFade
    exact Nat.min_eq_right (le_of_lt hover)
  refine ⟨le_of_eq hcl, hcl, ⟨_, merge_ok p opts [a, b] hch hr hbit hsize, ?_⟩⟩
  show mergedWarnings p (fadeSamplesOf p opts.fadeMs) [a, b] = ["crossfade clamped"]
  have hlt : clampedFade p (fadeSamplesOf p opts.fadeMs) a b
      < fadeSamplesOf p opts.fadeMs := by rw [hcl]; exact hover
  simp [mergedWarnings, mergeWarns, hlt]

theorem c5_overlong_fade_witness :
    clampedFade ⟨1000, 1, 8⟩ (fadeSamplesOf ⟨1000, 1, 8⟩ 3) [0, 0, 0, 0] [0, 0, 0, 0]
        ≤ min (samplesOf ⟨1000, 1, 8⟩ [0, 0, 0, 0])
            (samplesOf ⟨1000, 1, 8⟩ [0, 0, 0, 0]) / 2 ∧
    clampedFade ⟨1000, 1, 8⟩ (fadeSamplesOf ⟨1000, 1, 8⟩ 3) [0, 0, 0, 0] [0, 0, 0, 0]
        = min (samplesOf ⟨1000, 1, 8⟩ [0, 0, 0, 0])
            (samplesOf ⟨1000, 1, 8⟩ [0, 0, 0, 0]) / 2 ∧
    ∃ res, merge ⟨1000, 1, 8⟩ ⟨3, 64, true⟩ [[0, 0, 0, 0], [0, 0, 0, 0]] =
        (.ok res,
          some (buildWav ⟨1000, 1, 8⟩
            (mergedPayload ⟨1000, 1, 8⟩ (fadeSamplesOf ⟨1000, 1, 8⟩ 3)
              [[0, 0, 0, 0], [0, 0, 0, 0]]))) ∧
      res.warnings = ["crossfade clamped"] :=
  c5_overlong_fade ⟨1000, 1, 8⟩ ⟨3, 64, true⟩ [0, 0, 0, 0] [0, 0, 0, 0]
    (by norm_num) (by norm_num) (by norm_num) (by decide) (by decide)

theorem le_foldr_max (l : List Nat) (x : Nat) (hx : x ∈ l) : x ≤ l.foldr max 0 := by
  induction l with
  | nil => cases hx
  | cons a t ih =>
    rcases List.mem_cons.mp hx with rfl | h
    · exact le_max_left _ _
    · exact le_trans (ih h) (le_max_right _ _)

theorem foldr_max_mem (l : List Nat) (h : l ≠ []) : l.foldr max 0 ∈ l := by
  induction l with
  | nil => exact absurd rfl h
  | cons a t ih =>
    by_cases ht : t = []
    · subst ht; simp
    · simp only [List.foldr_cons]
      rcases max_cases a (t.foldr max 0) with ⟨heq, _⟩ | ⟨heq, _⟩
      · rw [heq]; exact List.mem_cons_self a t
      · rw [heq]; exact List.mem_cons_of_mem a (ih ht)

/-- The invalid-input list names exactly the inputs whose validation result is
invalid, at their input positions. -/
theorem mem_invalidIndices (results : List ValidationResult) (i : Nat) :
    i ∈ invalidIndices results ↔ ∃ r, results[i]? = some r ∧ isInvalid r := by
  simp only [invalidIndices, List.mem_map, List.mem_filter]
  constructor
  · rintro ⟨⟨j, r⟩, ⟨hmem, hinv⟩, rfl⟩
    exact ⟨r, List.mk_mem_enum_iff_getElem?.mp hmem, hinv⟩
  · rintro ⟨r, hget, hinv⟩
    exact ⟨(i, r), ⟨List.mk_mem_enum_iff_getElem?.mpr hget, hinv⟩, rfl⟩

/-- The mismatch list names exactly the valid inputs whose format differs
from the first valid input's format. -/
theorem mem_mismatchIndices (results : List ValidationResult) (i : Nat) :
    i ∈ mismatchIndices results ↔
      ∃ fd0 rest0 fd, validDescs results = fd0 :: rest0 ∧
        results[i]? = some (.valid fd) ∧ fd ≠ fd0 := by
  unfold mismatchIndices
  cases hval : validDescs results with
  | nil => simp [hval]
  | cons fd0 rest0 =>
    simp only [List.mem_map, List.mem_filter]
    constructor
    · rintro ⟨⟨j, r⟩, ⟨hmem, hg⟩, rfl⟩
      have hget := List.mk_mem_enum_iff_getElem?.mp hmem
      cases r with
      | valid fd =>
        refine ⟨fd0, rest0, fd, rfl, hget, ?_⟩
        simpa using hg
      | invalid s => simp at hg
    · rintro ⟨fd0', rest0', fd, heq, hget, hne⟩
      obtain ⟨rfl, rfl⟩ : fd0 = fd0' ∧ rest0 = rest0' := by
        injection heq with h1 h2
        exact ⟨h1, h2⟩
      exact ⟨(i, .valid fd), ⟨List.mk_mem_enum_iff_getElem?.mpr hget, by simpa using hne⟩,
        rfl⟩

/-- Claim C7: invalid inputs fail the job with `ValidationFailed` listing all
invalid inputs; differing formats with auto-convert off fail with
`FormatMismatch` naming the conflicting inputs — in both cases before any
byte is streamed, with no output artifact (`none`). -/
theorem c7_failFast (results : List ValidationResult) (streams : List (List Nat))
    (opts : MergeOptions) :
    (invalidIndices results ≠ [] →
      mergeJob results streams opts =
        (.error (.ValidationFailed (invalidIndices results)), none)) ∧
    (∀ i, i ∈ invalidIndices results ↔ ∃ r, results[i]? = some r ∧ isInvalid r) ∧
    (opts.autoConvert = false →
      ∀ fd rest, validDescs results = fd :: rest →
      ¬(rest.all fun d => d = fd) = true →
      invalidIndices results = [] →
      mergeJob results streams opts =
        (.error (.FormatMismatch (mismatchIndices results)), none)) ∧
    (∀ i, i ∈ mismatchIndices results ↔
      ∃ fd0 rest0 fd, validDescs results = fd0 :: rest0 ∧
        results[i]? = some (.valid fd) ∧ fd ≠ fd0) := by
  refine ⟨?_, mem_invalidIndices results, ?_, mem_mismatchIndices results⟩
  · intro h
    simp only [mergeJob, plan]
    rw [if_pos h]
  · intro hac fd rest hv hdiff hvalid0
    simp only [mergeJob, hac, plan, hvalid0, hv]
    simp [hdiff]

theorem c7_failFast_witness :
    mergeJob [ValidationResult.invalid "bad"] [] ⟨0, 4, false⟩ =
      (.error (.ValidationFailed (invalidIndices [ValidationResult.invalid "bad"])), none) ∧
    mergeJob [ValidationResult.valid ⟨44100, 1, 16⟩, ValidationResult.valid ⟨48000, 1, 16⟩]
        [] ⟨0, 4, false⟩ =
      (.error (.FormatMismatch (mismatchIndices
        [ValidationResult.valid ⟨44100, 1, 16⟩, ValidationResult.valid ⟨48000, 1, 16⟩])),
       none) :=
  ⟨(c7_failFast [ValidationResult.invalid "bad"] [] ⟨0, 4, false⟩).1 (by decide),
   (c7_failFast [ValidationResult.valid ⟨44100, 1, 16⟩,
       ValidationResult.valid ⟨48000, 1, 16⟩] [] ⟨0, 4, false⟩).2.2.1 rfl
     ⟨44100, 1, 16⟩ [⟨48000, 1, 16⟩] rfl (by decide) (by decide)⟩

/-- Claim C4: with all inputs valid and auto-convert on, the planner returns the
max-across-dimensions TargetProfile (each dimension bounds every input and is
attained by one), flags exactly the inputs not matching it, and when all
inputs share one format it returns that format flagging nothing. -/
theorem c4_plan_maxTarget (results : List ValidationResult)
    (hvalid : invalidIndices results = [])
    (fd : FormatDescriptor) (rest : List FormatDescriptor)
    (hv : validDescs results = fd :: rest) :
    ∃ T flags, plan results true = .ok (T, flags) ∧
      (∀ d ∈ validDescs results, d.sampleRate ≤ T.sampleRate ∧
        d.channels ≤ T.channels ∧ d.bitsPerSample ≤ T.bitsPerSample) ∧
      ((∃ d ∈ validDescs results, d.sampleRate = T.sampleRate) ∧
       (∃ d ∈ validDescs results, d.channels = T.channels) ∧
       (∃ d ∈ validDescs results, d.bitsPerSample = T.bitsPerSample)) ∧
      flags = (validDescs results).map (fun d => decide (d ≠ T)) ∧
      ((∀ d ∈ validDescs results, d = fd) →
        T = fd ∧ flags = (validDescs results).map fun _ => false) := by
  by_cases hall : (rest.all fun d => d = fd) = true
  · have hallp : ∀ d ∈ validDescs results, d = fd := by
      rw [hv]
      intro d hd
      rcases List.mem_cons.mp hd with rfl | hd'
      · rfl
      · exact of_decide_eq_true (List.all_eq_true.mp hall d hd')
    have hplan : plan results true = .ok (fd, (fd :: rest).map fun _ => false) := by
      simp [plan, hvalid, hv, hall]
    refine ⟨fd, (fd :: rest).map fun _ => false, hplan, ?_, ?_, ?_, ?_⟩
    · intro d hd
      rw [hallp d hd]
      exact ⟨le_refl _, le_refl _, le_refl _⟩
    · have hmem : fd ∈ validDescs results := by
        rw [hv]; exact List.mem_cons_self _ _
      exact ⟨⟨fd, hmem, rfl⟩, ⟨fd, hmem, rfl⟩, ⟨fd, hmem, rfl⟩⟩
    · rw [hv]
      refine List.map_congr_left fun d hd => ?_
      have := hallp d (by rw [hv]; exact hd)
      simp [this]
    · intro _
      exact ⟨rfl, by rw [hv]⟩
  · have hne : (fd :: rest : List FormatDescriptor) ≠ [] := by simp
    have hplan : plan results true = .ok (maxTarget (fd :: rest),
        (fd :: rest).map fun d => decide (d ≠ maxTarget (fd :: rest))) := by
      simp [plan, hvalid, hv, hall]
    refine ⟨maxTarget (fd :: rest), _, hplan, ?_, ?_, by rw [hv], ?_⟩
    · intro d hd
      rw [hv] at hd
      exact ⟨le_foldr_max _ _ (List.mem_map_of_mem _ hd),
        le_foldr_max _ _ (List.mem_map_of_mem _ hd),
        le_foldr_max _ _ (List.mem_map_of_mem _ hd)⟩
    · refine ⟨?_, ?_, ?_⟩
      · obtain ⟨d, hd, hdx⟩ := List.mem_map.mp
          (foldr_max_mem ((fd :: rest).map FormatDescriptor.sampleRate) (by simp))
        exact ⟨d, by rw [hv]; exact hd, hdx⟩
      · obtain ⟨d, hd, hdx⟩ := List.mem_map.mp
          (foldr_max_mem ((fd :: rest).map FormatDescriptor.channels) (by simp))
        exact ⟨d, by rw [hv]; exact hd, hdx⟩
      · obtain ⟨d, hd, hdx⟩ := List.mem_map.mp
          (foldr_max_mem ((fd :: rest).map FormatDescriptor.bitsPerSample) (by simp))
        exact ⟨d, by rw [hv]; exact hd, hdx⟩
    · intro hall2
      exact absurd (List.all_eq_true.mpr fun d hd =>
        decide_eq_true (hall2 d (by rw [hv]; exact List.mem_cons_of_mem _ hd))) hall

theorem c4_plan_maxTarget_witness :
    ∃ T flags,
      plan [ValidationResult.valid ⟨44100, 1, 16⟩, ValidationResult.valid ⟨22050, 2, 8⟩]
        true = .ok (T, flags) ∧
      (∀ d ∈ validDescs
          [ValidationResult.valid ⟨44100, 1, 16⟩, ValidationResult.valid ⟨22050, 2, 8⟩],
        d.sampleRate ≤ T.sampleRate ∧ d.channels ≤ T.channels ∧
        d.bitsPerSample ≤ T.bitsPerSample) ∧
      ((∃ d ∈ validDescs
          [ValidationResult.valid ⟨44100, 1, 16⟩, ValidationResult.valid ⟨22050, 2, 8⟩],
        d.sampleRate = T.sampleRate) ∧
       (∃ d ∈ validDescs
          [ValidationResult.valid ⟨44100, 1, 16⟩, ValidationResult.valid ⟨22050, 2, 8⟩],
        d.channels = T.channels) ∧
       (∃ d ∈ validDescs
          [ValidationResult.valid ⟨44100, 1, 16⟩, ValidationResult.valid ⟨22050, 2, 8⟩],
        d.bitsPerSample = T.bitsPerSample)) ∧
      flags = (validDescs
          [ValidationResult.valid ⟨44100, 1, 16⟩, ValidationResult.valid ⟨22050, 2, 8⟩]).map
        (fun d => decide (d ≠ T)) ∧
      ((∀ d ∈ validDescs
          [ValidationResult.valid ⟨44100, 1, 16⟩, ValidationResult.valid ⟨22050, 2, 8⟩],
        d = ⟨44100, 1, 16⟩) →
        T = ⟨44100, 1, 16⟩ ∧
        flags = (validDescs
          [ValidationResult.valid ⟨44100, 1, 16⟩,
           ValidationResult.valid ⟨22050, 2, 8⟩]).map fun _ => false) :=
  c4_plan_maxTarget
    [ValidationResult.valid ⟨44100, 1, 16⟩, ValidationResult.valid ⟨22050, 2, 8⟩]
    (by decide) ⟨44100, 1, 16⟩ [⟨22050, 2, 8⟩] rfl

theorem bytesLE_length (w u : Nat) : (bytesLE w u).length = w := by
  induction w generalizing u with
  | zero => rfl
  | succ n ih => simp [bytesLE, ih]

theorem encodeSample_length (w : Nat) (v : Int) : (encodeSample w v).length = w :=
  bytesLE_length w _

theorem flatten_drop_getD (ls : List (List Nat)) (L : Nat) :
    ∀ k, (∀ x ∈ ls, x.length = L) → k < ls.length →
      ls.flatten.drop (k * L) = ls.getD k [] ++ (ls.drop (k + 1)).flatten := by
  induction ls with
  | nil => intro k h hk; simp at hk
  | cons x t ih =>
    intro k h hk
    cases k with
    | zero => simp
    | succ k' =>
      have hx : x.length = L := h x (List.mem_cons_self x t)
      have hmul : (k' + 1) * L = x.length + k' * L := by rw [hx]; ring
      rw [List.flatten_cons, hmul, List.drop_append]
      rw [List.getD_cons_succ, List.drop_succ_cons]
      exact ih k' (fun y hy => h y (List.mem_cons_of_mem x hy)) (by simpa using hk)

theorem flatten_extract (ls : List (List Nat)) (L k : Nat)
    (h : ∀ x ∈ ls, x.length = L) (hk : k < ls.length) :
    (ls.flatten.drop (k * L)).take L = ls.getD k [] := by
  rw [flatten_drop_getD ls L k h hk]
  have hlen : (ls.getD k []).length = L := by
    rw [List.getD_eq_getElem ls [] hk]
    exact h _ (List.getElem_mem hk)
  rw [← hlen, List.take_left]

theorem drop_append_of_length (l1 l2 : List Nat) (n m : Nat) (h : l1.length = n) :
    (l1 ++ l2).drop (n + m) = l2.drop m := by
  subst h
  rw [List.drop_append]

theorem extract_within (l1 l2 : List Nat) (m t : Nat) (h : m + t ≤ l1.length) :
    ((l1 ++ l2).drop m).take t = (l1.drop m).take t := by
  rw [List.drop_append_of_le_length (by omega)]
  rw [List.take_append_of_le_length (by rw [List.length_drop]; omega)]

theorem range_map_getD (f : Nat → List Nat) (n k : Nat) (hk : k < n) :
    ((List.range n).map f).getD k [] = f k := by
  rw [List.getD_eq_getElem _ _ (by simpa using hk)]
  simp

theorem blendFrame_length (p : FormatDescriptor) (F k : Nat) (aR bR : List Nat) :
    (blendFrame p F k aR bR).length = frameBytes p := by
  simp only [blendFrame, List.length_flatten, List.map_map, Function.comp_def]
  have hcongr : List.map (fun c => (encodeSample (p.bitsPerSample / 8)
        (clampSample p.bitsPerSample
          (blendSample F k (sampleAt p aR k c) (sampleAt p bR k c)))).length)
      (List.range p.channels) =
      List.map (fun _ => p.bitsPerSample / 8) (List.range p.channels) :=
    List.map_congr_left fun c _ => encodeSample_length _ _
  rw [hcongr, List.map_const']
  simp [List.sum_replicate, frameBytes]

theorem blendRegion_length (p : FormatDescriptor) (F : Nat) (aR bR : List Nat) :
    (blendRegion p F aR bR).length = F * frameBytes p := by
  simp only [blendRegion, List.length_flatten, List.map_map, Function.comp_def]
  have hcongr : List.map (fun k => (blendFrame p F k aR bR).length) (List.range F) =
      List.map (fun _ => frameBytes p) (List.range F) :=
    List.map_congr_left fun k _ => blendFrame_length p F k aR bR
  rw [hcongr, List.map_const']
  simp [List.sum_replicate]

theorem blendRegion_extract (p : FormatDescriptor) (F k c : Nat) (aR bR : List Nat)
    (hk : k < F) (hc : c < p.channels) :
    ((blendRegion p F aR bR).drop
        ((k * p.channels + c) * (p.bitsPerSample / 8))).take (p.bitsPerSample / 8) =
      encodeSample (p.bitsPerSample / 8) (clampSample p.bitsPerSample
        (blendSample F k (sampleAt p aR k c) (sampleAt p bR k c))) := by
  have hdist : (k * p.channels + c) * (p.bitsPerSample / 8) =
      k * frameBytes p + c * (p.bitsPerSample / 8) := by
    simp only [frameBytes]; ring
  rw [hdist, ← List.drop_drop]
  have hframes : ∀ x ∈ (List.range F).map fun j => blendFrame p F j aR bR,
      x.length = frameBytes p := by
    intro x hx
    obtain ⟨j, _, rfl⟩ := List.mem_map.mp hx
    exact blendFrame_length p F j aR bR
  have hkl : k < ((List.range F).map fun j => blendFrame p F j aR bR).length := by
    simpa using hk
  rw [show blendRegion p F aR bR =
      ((List.range F).map fun j => blendFrame p F j aR bR).flatten from rfl]
  rw [flatten_drop_getD _ (frameBytes p) k hframes hkl]
  rw [range_map_getD _ F k hk]
  rw [extract_within _ _ _ _ ?hin]
  case hin =>
    rw [blendFrame_length]
    have h1 : c * (p.bitsPerSample / 8) + p.bitsPerSample / 8 =
        (c + 1) * (p.bitsPerSample / 8) := by ring
    rw [h1]
    simp only [frameBytes]
    exact Nat.mul_le_mul_right _ hc
  have hencs : ∀ x ∈ (List.range p.channels).map fun j =>
      encodeSample (p.bitsPerSample / 8) (clampSample p.bitsPerSample
        (blendSample F k (sampleAt p aR k j) (sampleAt p bR k j))),
      x.length = p.bitsPerSample / 8 := by
    intro x hx
    obtain ⟨j, _, rfl⟩ := List.mem_map.mp hx
    exact encodeSample_length _ _
  have hcl : c < ((List.range p.channels).map fun j =>
      encodeSample (p.bitsPerSample / 8) (clampSample p.bitsPerSample
        (blendSample F k (sampleAt p aR k j) (sampleAt p bR k j)))).length := by
    simpa using hc
  rw [show blendFrame p F k aR bR = ((List.range p.channels).map fun j =>
      encodeSample (p.bitsPerSample / 8) (clampSample p.bitsPerSample
        (blendSample F k (sampleAt p aR k j) (sampleAt p bR k j)))).flatten from rfl]
  rw [flatten_extract _ (p.bitsPerSample / 8) c hencs hcl]
  exact range_map_getD _ p.channels c hc

/-- Claim C3: at a boundary whose fade window needs no clamping, every byte-slice of
the blended window encodes `round(a[k]*(1 - k/F) + b[k]*(k/F))` computed per
channel on the decoded signed samples of the trailing region of the earlier
stream and the leading region of the later one, clamped to the bit depth's
representable range. -/
theorem c3_crossfade_formula (p : FormatDescriptor) (opts : MergeOptions)
    (a b : List Nat) (k c : Nat)
    (hnoclamp : fadeSamplesOf p opts.fadeMs ≤ min (samplesOf p a) (samplesOf p b) / 2)
    (hk : k < fadeSamplesOf p opts.fadeMs)
    (hc : c < p.channels) :
    ((mergedPayload p (fadeSamplesOf p opts.fadeMs) [a, b]).drop
        ((a.length - fadeSamplesOf p opts.fadeMs * frameBytes p) +
          (k * p.channels + c) * (p.bitsPerSample / 8))).take (p.bitsPerSample / 8) =
      encodeSample (p.bitsPerSample / 8) (clampSample p.bitsPerSample
        (round
          ((sampleAt p
              (a.drop (a.length - fadeSamplesOf p opts.fadeMs * frameBytes p)) k c : ℚ) *
              (1 - (k : ℚ) / (fadeSamplesOf p opts.fadeMs : ℚ)) +
            (sampleAt p (b.take (fadeSamplesOf p opts.fadeMs * frameBytes p)) k c : ℚ) *
              ((k : ℚ) / (fadeSamplesOf p opts.fadeMs : ℚ))))) := by
  have hclamp : clampedFade p (fadeSamplesOf p opts.fadeMs) a b
      = fadeSamplesOf p opts.fadeMs := by
    unfold clampedFade
    exact Nat.min_eq_left hnoclamp
  have hshape : mergedPayload p (fadeSamplesOf p opts.fadeMs) [a, b] =
      a.take (a.length - fadeSamplesOf p opts.fadeMs * frameBytes p) ++
        (blendRegion p (fadeSamplesOf p opts.fadeMs)
            (a.drop (a.length - fadeSamplesOf p opts.fadeMs * frameBytes p))
            (b.take (fadeSamplesOf p opts.fadeMs * frameBytes p)) ++
          b.drop (fadeSamplesOf p opts.fadeMs * frameBytes p)) := by
    simp only [mergedPayload, mergePayload, hclamp, List.append_assoc]
  rw [hshape]
  have hlen : (a.take (a.length - fadeSamplesOf p opts.fadeMs * frameBytes p)).length
      = a.length - fadeSamplesOf p opts.fadeMs * frameBytes p := by
    rw [List.length_take]
    exact Nat.min_eq_left (Nat.sub_le _ _)
  rw [drop_append_of_length _ _ _ _ hlen]
  rw [extract_within _ _ _ _ ?hin]
  case hin =>
    rw [blendRegion_length]
    have h1 : (k * p.channels + c) * (p.bitsPerSample / 8) + p.bitsPerSample / 8 =
        (k * p.channels + c + 1) * (p.bitsPerSample / 8) := by ring
    have h2 : k * p.channels + c + 1 ≤ fadeSamplesOf p opts.fadeMs * p.channels := by
      have h3 : k * p.channels + c + 1 ≤ (k + 1) * p.channels := by
        have : c + 1 ≤ p.channels := hc
        calc k * p.channels + c + 1 ≤ k * p.channels + p.channels := by omega
          _ = (k + 1) * p.channels := by ring
      exact le_trans h3 (Nat.mul_le_mul_right _ hk)
    rw [h1]
    calc (k * p.channels + c + 1) * (p.bitsPerSample / 8)
        ≤ fadeSamplesOf p opts.fadeMs * p.channels * (p.bitsPerSample / 8) :=
          Nat.mul_le_mul_right _ h2
      _ = fadeSamplesOf p opts.fadeMs * frameBytes p := by
          simp only [frameBytes]; ring
  exact blendRegion_extract p (fadeSamplesOf p opts.fadeMs) k c _ _ hk hc

theorem c3_crossfade_formula_witness :
    ((mergedPayload ⟨1000, 1, 8⟩ (fadeSamplesOf ⟨1000, 1, 8⟩ 2)
        [[10, 20, 30, 40], [50, 60, 70, 80]]).drop
        (([10, 20, 30, 40] : List Nat).length -
            fadeSamplesOf ⟨1000, 1, 8⟩ 2 * frameBytes ⟨1000, 1, 8⟩ +
          (1 * (1 : Nat) + 0) * (8 / 8))).take (8 / 8) =
      encodeSample (8 / 8) (clampSample 8
        (round
          ((sampleAt ⟨1000, 1, 8⟩
              (([10, 20, 30, 40] : List Nat).drop
                (([10, 20, 30, 40] : List Nat).length -
                  fadeSamplesOf ⟨1000, 1, 8⟩ 2 * frameBytes ⟨1000, 1, 8⟩)) 1 0 : ℚ) *
              (1 - (1 : ℚ) / (fadeSamplesOf ⟨1000, 1, 8⟩ 2 : ℚ)) +
            (sampleAt ⟨1000, 1, 8⟩
              (([50, 60, 70, 80] : List Nat).take
                (fadeSamplesOf ⟨1000, 1, 8⟩ 2 * frameBytes ⟨1000, 1, 8⟩)) 1 0 : ℚ) *
              ((1 : ℚ) / (fadeSamplesOf ⟨1000, 1, 8⟩ 2 : ℚ))))) :=
  c3_crossfade_formula ⟨1000, 1, 8⟩ ⟨2, 64, true⟩ [10, 20, 30, 40] [50, 60, 70, 80] 1 0
    (by decide) (by decide) (by decide)

/-- Outcome of one click of the merge-start button: whether the upload API was
invoked, whether the merge API (`startMerge`) was invoked, and whether an
error toast was shown. -/
structure StartOutcome where
  uploadCalled : Bool
  mergeStarted : Bool
  errorShown : Bool
deriving Repr, DecidableEq

/-- Embedded from the web front-end's merge-control component
(`handleStartMerge`): returns with an error when `canStartMerge` is off or
fewer than two files are client-side valid; otherwise uploads, and calls
`startMerge` only when the upload response marks every file `is_valid`. -/
def handleStartMerge (canStartMerge : Bool) (validCount : Nat)
    (respValid : List Bool) : StartOutcome :=
  if canStartMerge = false ∨ validCount < 2 then ⟨false, false, true⟩
  else if 0 < (respValid.filter fun v => !v).length then ⟨true, false, true⟩
  else ⟨true, true, false⟩

/-- Claim C9: the front-end invokes `startMerge` only with at least two valid files
(and the start gate on) and a fully valid upload response; with fewer than
two valid files it reports an error without uploading; any invalid file in
the upload response prevents the merge call. -/
theorem c9_merge_gating (canStart : Bool) (validCount : Nat) (respValid : List Bool) :
    ((handleStartMerge canStart validCount respValid).mergeStarted = true →
      2 ≤ validCount ∧ canStart = true ∧ ∀ v ∈ respValid, v = true) ∧
    (validCount < 2 →
      handleStartMerge canStart validCount respValid = ⟨false, false, true⟩) ∧
    ((∃ v ∈ respValid, v = false) →
      (handleStartMerge canStart validCount respValid).mergeStarted = false) := by
  refine ⟨?_, ?_, ?_⟩
  · intro h
    unfold handleStartMerge at h
    by_cases h1 : canStart = false ∨ validCount < 2
    · rw [if_pos h1] at h
      simp at h
    · rw [if_neg h1] at h
      by_cases h2 : 0 < (respValid.filter fun v => !v).length
      · rw [if_pos h2] at h
        simp at h
      · push_neg at h1
        have hcs : canStart = true := by
          cases canStart
          · exact absurd rfl h1.1
          · rfl
        refine ⟨by omega, hcs, ?_⟩
        intro v hv
        by_contra hvf
        have hvfalse : v = false := by
          cases v
          · rfl
          · exact absurd rfl hvf
        apply h2
        apply List.length_pos.mpr
        apply List.ne_nil_of_mem (a := v)
        exact List.mem_filter.mpr ⟨hv, by simp [hvfalse]⟩
  · intro h
    unfold handleStartMerge
    rw [if_pos (Or.inr h)]
  · intro ⟨v, hv, hvfalse⟩
    unfold handleStartMerge
    by_cases h1 : canStart = false ∨ validCount < 2
    · rw [if_pos h1]
    · rw [if_neg h1]
      rw [if_pos ?pos]
      case pos =>
        apply List.length_pos.mpr
        apply List.ne_nil_of_mem (a := v)
        exact List.mem_filter.mpr ⟨hv, by simp [hvfalse]⟩

theorem c9_merge_gating_witness :
    handleStartMerge true 1 [] = ⟨false, false, true⟩ ∧
    (handleStartMerge true 3 [true, false, true]).mergeStarted = false :=
  ⟨(c9_merge_gating true 1 []).2.1 (by decide),
   (c9_merge_gating true 3 [true, false, true]).2.2
     ⟨false, by decide, rfl⟩⟩

/-- Embedded from the web front-end's merge-options component: the options
record the component edits through `updateOptions`. -/
structure UploadOptionsState where
  fade_duration_ms : Int
  buffer_size : Int
  auto_convert : Bool
deriving Repr, DecidableEq

/-- One `updateOptions` call issued by the options component. -/
inductive OptionsEvent where
  | setFade (v : Int)
  | setBuffer (v : Int)
  | setAutoConvert (b : Bool)
deriving Repr, DecidableEq

/-- Embedded from merge-options.tsx: the fade Slider is configured with
min 0, max 5000, step 100, so its change payload is a multiple of 100 in
[0, 5000]; the buffer Select offers exactly the items 32768, 65536, 131072;
the auto-convert Checkbox yields any boolean. -/
def componentEmits : OptionsEvent → Prop
  | .setFade v => 0 ≤ v ∧ v ≤ 5000 ∧ v % 100 = 0
  | .setBuffer v => v ∈ ([32768, 65536, 131072] : List Int)
  | .setAutoConvert _ => True

/-- Embedded from merge-options.tsx: each event updates exactly one field. -/
def updateOptions (o : UploadOptionsState) : OptionsEvent → UploadOptionsState
  | .setFade v => { o with fade_duration_ms := v }
  | .setBuffer v => { o with buffer_size := v }
  | .setAutoConvert bflag => { o with auto_convert := bflag }

/-- The options invariant of the claim: fade duration in [0, 5000] and a
multiple of 100; buffer size one of the three offered powers of two. -/
def optionsInvariant (o : UploadOptionsState) : Prop :=
  0 ≤ o.fade_duration_ms ∧ o.fade_duration_ms ≤ 5000 ∧
  o.fade_duration_ms % 100 = 0 ∧
  o.buffer_size ∈ ([32768, 65536, 131072] : List Int) ∧
  ∃ kp : Nat, o.buffer_size = 2 ^ kp

/-- Claim C10: every sequence of `updateOptions` calls the options component can
issue preserves the options invariant — fade in [0, 5000] stepped by 100
(hence never negative), buffer size one of the three offered powers of two. -/
theorem c10_options_invariant (o : UploadOptionsState) (evs : List OptionsEvent)
    (hinit : optionsInvariant o) (hemit : ∀ e ∈ evs, componentEmits e) :
    optionsInvariant (evs.foldl updateOptions o) := by
  induction evs generalizing o with
  | nil => exact hinit
  | cons e t ih =>
    rw [List.foldl_cons]
    refine ih (updateOptions o e) ?_ fun e' he' => hemit e' (List.mem_cons_of_mem _ he')
    cases e with
    | setFade v =>
      obtain ⟨h1, h2, h3⟩ := hemit _ (List.mem_cons_self _ _)
      exact ⟨h1, h2, h3, hinit.2.2.2.1, hinit.2.2.2.2⟩
    | setBuffer v =>
      have hv := hemit _ (List.mem_cons_self _ _)
      refine ⟨hinit.1, hinit.2.1, hinit.2.2.1, hv, ?_⟩
      have hv' : v = 32768 ∨ v = 65536 ∨ v = 131072 := by simpa [componentEmits] using hv
      rcases hv' with rfl | rfl | rfl
      · exact ⟨15, rfl⟩
      · exact ⟨16, rfl⟩
      · exact ⟨17, rfl⟩
    | setAutoConvert bflag => exact hinit

theorem c10_options_invariant_witness :
    optionsInvariant
      (([OptionsEvent.setFade 500, OptionsEvent.setBuffer 32768,
        OptionsEvent.setAutoConvert false]).foldl updateOptions ⟨0, 65536, true⟩) :=
  c10_options_invariant ⟨0, 65536, true⟩
    [OptionsEvent.setFade 500, OptionsEvent.setBuffer 32768,
      OptionsEvent.setAutoConvert false]
    ⟨by decide, by decide, by decide, by decide, ⟨16, by decide⟩⟩
    (by
      intro e he
      fin_cases he
      · exact ⟨by decide, by decide, by decide⟩
      · simp [componentEmits]
      · exact trivial)

end AudioMerge
